import Mathlib

/-!
# Verification of the browser-use-js core against its specification

Shallow embedding of the core of the `browser_use_js` repository:
the action registry and dispatcher (`Registry.executeAction`,
`Controller.act` / `Controller.multiAct`), the DOM snapshot layer
(`DomService._createSelectorMap`, `DOMElementNode` serialization), the
stable-identity history matcher (`HistoryTreeProcessor`), the context
window manager (`MessageManager`), and the orchestrator step
(`Agent.step` / `Agent._handleStepError`).

Modelling conventions:
* JavaScript exceptions are `Except String` values (the thrown `Error`'s
  message string).
* JavaScript object mutation is explicit state passing.
* JavaScript numbers used as token counts are modelled as `Int`
  (the code subtracts freely); string lengths as `Nat`.
* JavaScript truthiness on optional string / boolean fields is modelled
  explicitly (`undefined` and `''` and `false` are falsy).
-/

namespace BrowserUse

/-! ## Action results (controller/views.js `ActionResult`)

Fields absent on the JS object are `none` (JS `undefined`). -/

structure ActionResult where
  error : Option String := none
  extractedContent : Option String := none
  includeInMemory : Option Bool := none
  isDone : Option Bool := none
deriving Repr, DecidableEq, Inhabited

/-- JS truthiness of an optional string field: `undefined` and `''` are falsy. -/
def truthyStr : Option String → Bool
  | none => false
  | some s => s ≠ ""

/-- JS truthiness of an optional boolean field. -/
def truthyBool : Option Bool → Bool
  | none => false
  | some b => b

/-- The `multiAct` loop's break condition `result.error || result.isDone`. -/
def ActionResult.stops (r : ActionResult) : Bool :=
  truthyStr r.error || truthyBool r.isDone

/-! ## Action registry and dispatcher (controller/registry/service.js,
controller/service.js)

`π` is the type of raw action parameters, `σ` the internal state of the
browser context object. A registered action's implementation either
receives the browser (`requiresBrowser` registrations, which can update
the browser's state) or is called without it. -/

/-- The implementation function of a registered action. `browser f`
corresponds to a registration with `requiresBrowser = true` (the JS code
calls `action.function(validatedParams, browser)`); `plain f` to
`requiresBrowser = false` (called as `action.function(validatedParams)`,
so it cannot touch the browser). A `.error` outcome is the implementation
throwing. -/
inductive ActionImpl (π σ : Type) where
  | browser (f : π → σ → Except String (ActionResult × σ))
  | plain (f : π → Except String ActionResult)

/-- One entry of `ActionRegistry.actions` (registry/views.js). -/
structure RegisteredAction (π σ : Type) where
  description : String := ""
  /-- `paramModel` validation: `new action.paramModel(params).validate()`. -/
  validate : π → Bool
  impl : ActionImpl π σ

/-- The `requiresBrowser` flag, tied to the calling convention of the
implementation. -/
def RegisteredAction.requiresBrowser (a : RegisteredAction π σ) : Bool :=
  match a.impl with
  | .browser _ => true
  | .plain _ => false

/-- `Registry.registry.actions`: a name-keyed table of registered actions. -/
structure Registry (π σ : Type) where
  actions : List (String × RegisteredAction π σ)

/-- Key lookup in the JS actions object. -/
def Registry.find (reg : Registry π σ) (name : String) :
    Option (RegisteredAction π σ) :=
  reg.actions.lookup name

/-- `Controller._executeWithResult`: runs an action body, catching any
throw and converting it into an `ActionResult` with `error` set. The
default controller actions wrap their bodies with this, so their
implementations never throw. -/
def executeWithResult (body : Except String ActionResult) : ActionResult :=
  match body with
  | .ok r => r
  | .error e => { error := some e }

/-- The catch block of `Registry.executeAction`: anything thrown inside
the try block is rethrown as `Error executing action <name>: <message>`. -/
def wrapActionError (actionName : String) :
    Except String α → Except String α
  | .error m => .error ("Error executing action " ++ actionName ++ ": " ++ m)
  | .ok v => .ok v

/-- `Registry.executeAction`. An unknown name throws
`Action <name> not found` (outside the function's try block, so not
wrapped); failures inside the try block — parameter validation, a
missing required browser, or a throw from the implementation — are
rethrown wrapped as `Error executing action <name>: <message>`. -/
def Registry.executeAction (reg : Registry π σ) (actionName : String)
    (params : π) (browser : Option σ) :
    Except String (ActionResult × Option σ) :=
  match reg.find actionName with
  | none => .error ("Action " ++ actionName ++ " not found")
  | some a =>
    wrapActionError actionName
      (if a.validate params = false then
        .error ("Invalid parameters for action " ++ actionName)
       else
        match a.impl with
        | .plain f =>
          match f params with
          | .error e => .error e
          | .ok r => .ok (r, browser)
        | .browser f =>
          match browser with
          | none =>
            .error ("Action " ++ actionName ++ " requires browser but none provided")
          | some s =>
            match f params s with
            | .error e => .error e
            | .ok rs => .ok (rs.1, some rs.2))

/-- One model-emitted action object `{actionName: params}`: the dispatcher
reads `Object.keys(action)[0]` as the name and its value as the params. -/
structure ActionCall (π : Type) where
  name : String
  params : π
deriving Repr, DecidableEq

/-- `Controller.act`. -/
def act (reg : Registry π σ) (action : ActionCall π) (browser : Option σ) :
    Except String (ActionResult × Option σ) :=
  reg.executeAction action.name action.params browser

/-- `Controller.multiAct`: executes the actions in order, pushing each
result, breaking after the first result with truthy `error` or `isDone`.
A throw from `act` propagates. -/
def multiAct (reg : Registry π σ) (actions : List (ActionCall π))
    (browser : Option σ) : Except String (List ActionResult × Option σ) :=
  match actions with
  | [] => .ok ([], browser)
  | a :: rest =>
    match act reg a browser with
    | .error e => .error e
    | .ok (r, b') =>
      if r.stops then .ok ([r], b')
      else
        match multiAct reg rest b' with
        | .error e => .error e
        | .ok (rs, b'') => .ok (r :: rs, b'')

/-- The same sequential execution without the short-circuit break: the
ordered list of results the actions produce when each is run to
completion in the caller's order. Used to phrase "action k is the first
whose result carries `error` or `isDone`". -/
def runAll (reg : Registry π σ) (actions : List (ActionCall π))
    (browser : Option σ) : Except String (List ActionResult × Option σ) :=
  match actions with
  | [] => .ok ([], browser)
  | a :: rest =>
    match act reg a browser with
    | .error e => .error e
    | .ok (r, b') =>
      match runAll reg rest b' with
      | .error e => .error e
      | .ok (rs, b'') => .ok (r :: rs, b'')

/-- `Except.map` on a known `ok`. -/
theorem exceptMap_ok (f : α → β) (x : α) :
    Except.map f (Except.ok x : Except ε α) = .ok (f x) := rfl

/-- `Except.map` on a known `error`. -/
theorem exceptMap_error (f : α → β) (e : ε) :
    Except.map f (Except.error e : Except ε α) = .error e := rfl

/-- `act` never changes whether a browser is attached: a `plain` action is
called without the browser, and a `browser` action receives and returns it. -/
theorem act_preserves_browser_presence (reg : Registry π σ) (a : ActionCall π)
    (b b' : Option σ) (r : ActionResult) (h : act reg a b = .ok (r, b')) :
    b'.isSome = b.isSome := by
  unfold act Registry.executeAction at h
  cases hf : reg.find a.name with
  | none => simp [hf] at h
  | some ra =>
    simp only [hf] at h
    cases hv : ra.validate a.params with
    | false => simp [hv, wrapActionError] at h
    | true =>
      simp only [hv] at h
      cases himpl : ra.impl with
      | plain f =>
        simp only [himpl] at h
        cases hfp : f a.params with
        | error e => simp [hfp, wrapActionError] at h
        | ok r0 =>
          simp [hfp, wrapActionError] at h
          rw [← h.2]
      | browser f =>
        simp only [himpl] at h
        cases b with
        | none => simp [wrapActionError] at h
        | some s =>
          cases hfp : f a.params s with
          | error e => simp [hfp, wrapActionError] at h
          | ok rs =>
            simp [hfp, wrapActionError] at h
            rw [← h.2]
            simp

/-- C1: for every ordered list of N actions passed to `multiAct`, if action
k (k ≤ N, here the 0-based index `k` with 1-based position `k+1`) is the
first whose result carries `error` or `isDone`, then `multiAct` returns
exactly the first `k+1` results in execution order, and no action after
the stopping one is ever invoked: the returned results are the same for
every continuation `tail` of the first `k+1` actions. The premise is
phrased over `runAll`, the same in-order execution without the break. -/
theorem multiAct_stops_at_first_error_or_done (reg : Registry π σ) :
    ∀ (actions : List (ActionCall π)) (b : Option σ)
      (rs : List ActionResult) (b' : Option σ) (k : ℕ),
      runAll reg actions b = .ok (rs, b') →
      k < rs.length →
      (rs.getD k default).stops = true →
      (∀ j, j < k → (rs.getD j default).stops = false) →
      (multiAct reg actions b).map Prod.fst = .ok (rs.take (k + 1)) ∧
      ∀ tail,
        (multiAct reg (actions.take (k + 1) ++ tail) b).map Prod.fst =
          .ok (rs.take (k + 1)) := by
  intro actions
  induction actions with
  | nil =>
    intro b rs b' k hrun hk _ _
    simp [runAll] at hrun
    obtain ⟨rfl, -⟩ := hrun
    simp at hk
  | cons a rest ih =>
    intro b rs b' k hrun hk hstop hfirst
    rw [runAll] at hrun
    cases hact : act reg a b with
    | error e => simp only [hact] at hrun; exact Except.noConfusion hrun
    | ok p =>
      obtain ⟨r, b1⟩ := p
      simp only [hact] at hrun
      cases hrest : runAll reg rest b1 with
      | error e => simp only [hrest] at hrun; exact Except.noConfusion hrun
      | ok q =>
        obtain ⟨rs1, b2⟩ := q
        simp only [hrest, Except.ok.injEq, Prod.mk.injEq] at hrun
        obtain ⟨hrs, -⟩ := hrun
        subst hrs
        cases k with
        | zero =>
          simp only [List.getD_cons_zero] at hstop
          constructor
          · rw [multiAct, hact]
            simp [hstop, exceptMap_ok]
          · intro tail
            simp only [List.take_succ_cons, List.take_zero,
              List.singleton_append]
            rw [multiAct, hact]
            simp [hstop, exceptMap_ok]
        | succ k' =>
          have hr0 : r.stops = false := by
            have := hfirst 0 (Nat.succ_pos k')
            simpa using this
          have hlen : k' < rs1.length := by
            simpa using hk
          have hstop' : (rs1.getD k' default).stops = true := by
            simpa using hstop
          have hfirst' : ∀ j, j < k' → (rs1.getD j default).stops = false := by
            intro j hj
            have := hfirst (j + 1) (Nat.succ_lt_succ hj)
            simpa using this
          obtain ⟨ih1, ih2⟩ := ih b1 rs1 b2 k' hrest hlen hstop' hfirst'
          constructor
          · rw [multiAct, hact]
            simp only [hr0, Bool.false_eq_true, if_false]
            cases hm : multiAct reg rest b1 with
            | error e => rw [hm] at ih1; exact absurd ih1 (by simp [exceptMap_error])
            | ok q2 =>
              obtain ⟨l, b3⟩ := q2
              rw [hm] at ih1
              simp only [exceptMap_ok, Except.ok.injEq] at ih1
              simp [ih1, exceptMap_ok]
          · intro tail
            simp only [List.take_succ_cons, List.cons_append]
            rw [multiAct, hact]
            simp only [hr0, Bool.false_eq_true, if_false]
            have htail := ih2 tail
            cases hm : multiAct reg (rest.take (k' + 1) ++ tail) b1 with
            | error e =>
              rw [hm] at htail; exact absurd htail (by simp [exceptMap_error])
            | ok q2 =>
              obtain ⟨l, b3⟩ := q2
              rw [hm] at htail
              simp only [exceptMap_ok, Except.ok.injEq] at htail
              simp [htail, exceptMap_ok]

/-! ### Concrete registry used to exercise the dispatcher

A small registry in the image of `Controller._registerDefaultActions`:
the browser actions wrap their bodies with `_executeWithResult`, so their
implementations always return an `ActionResult` (possibly with `error`
set) instead of throwing. -/

/-- A click that succeeds, in the shape of the registered click action. -/
def okClick : RegisteredAction Unit Unit :=
  { validate := fun _ => true
    impl := .browser fun _ s =>
      .ok (executeWithResult
        (.ok { extractedContent := some "clicked", includeInMemory := some true }), s) }

/-- A text input that succeeds. -/
def okInput : RegisteredAction Unit Unit :=
  { validate := fun _ => true
    impl := .browser fun _ s =>
      .ok (executeWithResult
        (.ok { extractedContent := some "typed", includeInMemory := some true }), s) }

/-- A click whose body throws: `_executeWithResult` captures the throw as
an `ActionResult` with `error` set. -/
def failingClick : RegisteredAction Unit Unit :=
  { validate := fun _ => true
    impl := .browser fun _ s =>
      .ok (executeWithResult (.error "Element no longer available"), s) }

/-- The `done` action (`Complete task`), registered without a browser. -/
def doneAction : RegisteredAction Unit Unit :=
  { validate := fun _ => true
    impl := .plain fun _ =>
      .ok { isDone := some true, extractedContent := some "task complete" } }

/-- An action whose parameter model rejects every input. -/
def rejectingAction : RegisteredAction Unit Unit :=
  { validate := fun _ => false
    impl := .plain fun _ => .ok {} }

/-- A browser-requiring action, used to exercise the missing-session path. -/
def sessionAction : RegisteredAction Unit Unit :=
  { validate := fun _ => true
    impl := .browser fun _ s => .ok (executeWithResult (.ok {}), s) }

/-- A concrete controller registry. -/
def sampleRegistry : Registry Unit Unit :=
  ⟨[("click_element", okClick), ("input_text", okInput),
    ("failing_click", failingClick), ("done", doneAction),
    ("invalid_params", rejectingAction), ("session_action", sessionAction)]⟩

/-- The spec's 3-action scenario plus a fourth action that must never run:
click (ok), input (ok), click (fails), done. -/
def sampleActions : List (ActionCall Unit) :=
  [⟨"click_element", ()⟩, ⟨"input_text", ()⟩, ⟨"failing_click", ()⟩,
   ⟨"done", ()⟩]

/-- Witness for C1: on the concrete 4-action list whose third result is the
first to carry `error`, `multiAct` returns exactly the first three results,
and the same three results whatever is appended after the stopping action. -/
theorem multiAct_stops_at_first_error_or_done_witness :
    (multiAct sampleRegistry sampleActions (some ())).map Prod.fst =
      .ok [{ extractedContent := some "clicked", includeInMemory := some true },
           { extractedContent := some "typed", includeInMemory := some true },
           { error := some "Element no longer available" }] ∧
    (multiAct sampleRegistry (sampleActions.take 3 ++ [⟨"done", ()⟩])
        (some ())).map Prod.fst =
      .ok [{ extractedContent := some "clicked", includeInMemory := some true },
           { extractedContent := some "typed", includeInMemory := some true },
           { error := some "Element no longer available" }] := by
  have h := multiAct_stops_at_first_error_or_done sampleRegistry sampleActions
    (some ())
    [{ extractedContent := some "clicked", includeInMemory := some true },
     { extractedContent := some "typed", includeInMemory := some true },
     { error := some "Element no longer available" },
     { isDone := some true, extractedContent := some "task complete" }]
    (some ()) 2 rfl (by decide) (by decide) (by decide)
  exact ⟨h.1, h.2 [⟨"done", ()⟩]⟩

/-- Counterexample for C2: `multiAct` does throw. An unknown action name,
a failing parameter validation, and a missing required browser session all
propagate as exceptions out of `multiAct` instead of being captured in an
`ActionResult.error`. -/
theorem multiAct_throws_counterexample :
    multiAct sampleRegistry [⟨"unknown_action", ()⟩] (some ()) =
      .error "Action unknown_action not found" ∧
    multiAct sampleRegistry [⟨"invalid_params", ()⟩] (some ()) =
      .error
        "Error executing action invalid_params: Invalid parameters for action invalid_params" ∧
    multiAct sampleRegistry [⟨"session_action", ()⟩] none =
      .error
        "Error executing action session_action: Action session_action requires browser but none provided" := by
  exact ⟨rfl, rfl, rfl⟩

/-- C2 (amended): `multiAct` never throws *provided* every listed action is
registered, its parameters validate, a browser is supplied when the action
requires one, and its implementation never throws (as holds for the default
controller actions, whose bodies are wrapped by `_executeWithResult`).
Failures inside such implementations come back as `ActionResult.error`
data; but an unknown name, a validation failure, or a missing required
session is thrown out of `multiAct` to its caller. -/
theorem multiAct_ok_of_wellformed_calls (reg : Registry π σ)
    (actions : List (ActionCall π)) (b : Option σ)
    (h : ∀ a ∈ actions, ∃ ra, reg.find a.name = some ra ∧
      ra.validate a.params = true ∧
      (ra.requiresBrowser = true → b.isSome = true) ∧
      (match ra.impl with
       | .plain f => ∀ p, (f p).isOk = true
       | .browser f => ∀ p s, (f p s).isOk = true)) :
    (multiAct reg actions b).isOk = true := by
  induction actions generalizing b with
  | nil => simp [multiAct, Except.isOk, Except.toBool]
  | cons a rest ih =>
    obtain ⟨ra, hf, hv, hb, himpl⟩ := h a (List.mem_cons_self a rest)
    have hstep : ∃ r b', act reg a b = .ok (r, b') ∧ b'.isSome = b.isSome := by
      unfold act Registry.executeAction
      rw [hf]
      cases hi : ra.impl with
      | plain f =>
        rw [hi] at himpl
        have := himpl a.params
        cases hfp : f a.params with
        | error e => rw [hfp] at this; simp [Except.isOk, Except.toBool] at this
        | ok r => exact ⟨r, b, by simp [hv, hi, hfp, wrapActionError], rfl⟩
      | browser f =>
        have hbs : b.isSome = true := by
          apply hb
          simp [RegisteredAction.requiresBrowser, hi]
        cases b with
        | none => simp at hbs
        | some s =>
          rw [hi] at himpl
          have := himpl a.params s
          cases hfp : f a.params s with
          | error e =>
            rw [hfp] at this; simp [Except.isOk, Except.toBool] at this
          | ok rs =>
            exact ⟨rs.1, some rs.2, by simp [hv, hi, hfp, wrapActionError], rfl⟩
    obtain ⟨r, b', hact, hpres⟩ := hstep
    rw [multiAct, hact]
    cases hs : r.stops with
    | true => simp [hs, Except.isOk, Except.toBool]
    | false =>
      simp only [hs, Bool.false_eq_true, if_false]
      have hrest : (multiAct reg rest b').isOk = true := by
        apply ih
        intro a' ha'
        obtain ⟨ra', hf', hv', hb', himpl'⟩ := h a' (List.mem_cons_of_mem a ha')
        exact ⟨ra', hf', hv', fun hreq => by rw [hpres]; exact hb' hreq, himpl'⟩
      cases hm : multiAct reg rest b' with
      | error e => rw [hm] at hrest; simp [Except.isOk, Except.toBool] at hrest
      | ok q => simp [hm, hs, Except.isOk, Except.toBool]

/-- Witness for the amended C2: a concrete well-formed two-action call
(click with a session, then done) returns `ok`. -/
theorem multiAct_ok_of_wellformed_calls_witness :
    (multiAct sampleRegistry [⟨"click_element", ()⟩, ⟨"done", ()⟩]
      (some ())).isOk = true := by
  apply multiAct_ok_of_wellformed_calls
  intro a ha
  simp only [List.mem_cons, List.mem_singleton, List.not_mem_nil, or_false] at ha
  rcases ha with rfl | rfl
  · exact ⟨okClick, rfl, rfl, fun _ => rfl, fun p s => rfl⟩
  · exact ⟨doneAction, rfl, rfl, by decide, fun p => rfl⟩

/-! ## DOM snapshot layer (dom/views.js, dom/service.js)

Element trees as a mutual inductive: a node is a `DOMTextNode` (text,
visibility) or a `DOMElementNode` (data plus ordered children). The JS
parent back-reference is not part of the tree value; the history layer
below models it explicitly as an ancestor chain. -/

/-- The scalar fields of a `DOMElementNode`. `attributes` is the JS
attribute object as an insertion-ordered key/value list;
`highlightIndex` is `none` for the JS `null`. -/
structure ElemData where
  tagName : String
  xpath : String := ""
  attributes : List (String × String) := []
  isVisible : Bool := false
  isInteractive : Bool := false
  isTopElement : Bool := false
  highlightIndex : Option Nat := none
  shadowRoot : Bool := false
deriving Repr

mutual
inductive DOMNode : Type where
  | text (t : String) (isVisible : Bool) : DOMNode
  | elem (data : ElemData) (children : DOMList) : DOMNode
inductive DOMList : Type where
  | nil : DOMList
  | cons (hd : DOMNode) (tl : DOMList) : DOMList
end

instance : Inhabited DOMNode := ⟨.text "" false⟩

mutual
/-- The `traverse` of `getAllTextTillNextClickableElement`: pushes the
text of text nodes onto the accumulator, stops (returning `true`) at any
element node with `isInteractive` and a non-null `highlightIndex` —
including the node the method was called on, since the source checks
`node` without excluding `this` — and otherwise descends into children,
aborting as soon as a child traversal reports a stop. -/
def gatNode : DOMNode → List String → List String × Bool
  | .text t _, acc => (acc ++ [t], false)
  | .elem d cs, acc =>
    if d.isInteractive && d.highlightIndex.isSome then (acc, true)
    else gatList cs acc

/-- Child loop of the same traversal. -/
def gatList : DOMList → List String → List String × Bool
  | .nil, acc => (acc, false)
  | .cons c tl, acc =>
    match gatNode c acc with
    | (acc', true) => (acc', true)
    | (acc', false) => gatList tl acc'
end

/-- JS `String.prototype.trim`: strip whitespace from both ends
(computable over the character list so concrete values reduce). -/
def jsTrim (s : String) : String :=
  ⟨((s.data.dropWhile Char.isWhitespace).reverse.dropWhile
      Char.isWhitespace).reverse⟩

/-- `DOMElementNode.getAllTextTillNextClickableElement`:
`texts.join(' ').trim()` over the traversal started at the node itself. -/
def getAllTextTillNextClickableElement (self : DOMNode) : String :=
  jsTrim (String.intercalate " " (gatNode self []).1)

/-- The per-element string built by `clickableElementsToString`:
`index[:]<tag>` then, when attribute filtering is requested, the
requested attribute values that exist and are non-empty joined by
spaces (plus a trailing space when non-empty), then the inline text when
non-empty, then `</tag>`. -/
def renderElement (includeAttributes : List String) (d : ElemData)
    (cs : DOMList) (i : Nat) : String :=
  let base := toString i ++ "[:]<" ++ d.tagName ++ ">"
  let base :=
    if includeAttributes.length > 0 then
      let attrs := String.intercalate " "
        ((includeAttributes.filterMap fun a => d.attributes.lookup a).filter
          fun v => v ≠ "")
      if attrs ≠ "" then base ++ attrs ++ " " else base
    else base
  let text := getAllTextTillNextClickableElement (.elem d cs)
  let base := if text ≠ "" then base ++ text else base
  base ++ "</" ++ d.tagName ++ ">"

mutual
/-- The `traverse` of `clickableElementsToString`. On a text node the
source still enters the "has highlight index" branch (a `DOMTextNode`
has no `highlightIndex` property and `undefined !== null` holds) and then
either reads `node.attributes[attr]` with `node.attributes === undefined`
or calls the nonexistent method `node.getAllTextTillNextClickableElement`
— both throw a `TypeError`, modelled as `.error "TypeError"`. -/
def cesNode (includeAttributes : List String) :
    DOMNode → Except String (List String)
  | .text _ _ => .error "TypeError"
  | .elem d cs =>
    let own :=
      match d.highlightIndex with
      | some i => [renderElement includeAttributes d cs i]
      | none => []
    match cesList includeAttributes cs with
    | .error e => .error e
    | .ok rest => .ok (own ++ rest)

/-- Child loop of `clickableElementsToString`'s traversal. -/
def cesList (includeAttributes : List String) :
    DOMList → Except String (List String)
  | .nil => .ok []
  | .cons c tl =>
    match cesNode includeAttributes c with
    | .error e => .error e
    | .ok hd =>
      match cesList includeAttributes tl with
      | .error e => .error e
      | .ok rest => .ok (hd ++ rest)
end

/-- `DOMElementNode.clickableElementsToString`: the rendered element
strings joined by newlines, or the propagated `TypeError`. -/
def clickableElementsToString (root : DOMNode)
    (includeAttributes : List String) : Except String String :=
  match cesNode includeAttributes root with
  | .error e => .error e
  | .ok els => .ok (String.intercalate "\n" els)

/-! ### Selector map (`DomService._createSelectorMap`) -/

/-- JS object assignment `selectorMap[k] = v`: overwrite an existing
numeric key in place, append a fresh one. -/
def mapSet (m : List (Nat × DOMNode)) (k : Nat) (v : DOMNode) :
    List (Nat × DOMNode) :=
  if m.any (fun p => p.1 = k) then
    m.map (fun p => if p.1 = k then (k, v) else p)
  else m ++ [(k, v)]

/-- Key read `m[i]` on the selector-map object. -/
def mapLookup (m : List (Nat × DOMNode)) (i : Nat) : Option DOMNode :=
  (m.find? fun p => p.1 = i).map Prod.snd

/-- The key set of the selector-map object. -/
def mapKeys (m : List (Nat × DOMNode)) : List Nat :=
  m.map Prod.fst

mutual
/-- `processNode` of `_createSelectorMap`: element nodes with a non-null
`highlightIndex` are entered under that index, then the children are
processed; text nodes are skipped (`instanceof DOMElementNode` fails). -/
def processNode (m : List (Nat × DOMNode)) : DOMNode → List (Nat × DOMNode)
  | .text _ _ => m
  | .elem d cs =>
    let m' :=
      match d.highlightIndex with
      | some i => mapSet m i (.elem d cs)
      | none => m
    processList m' cs

/-- Child loop of `_createSelectorMap`. -/
def processList (m : List (Nat × DOMNode)) : DOMList → List (Nat × DOMNode)
  | .nil => m
  | .cons c tl => processList (processNode m c) tl
end

/-- `DomService._createSelectorMap` (also the map component of
`getClickableElements`'s `DOMState`). -/
def createSelectorMap (root : DOMNode) : List (Nat × DOMNode) :=
  processNode [] root

mutual
/-- Specification-side set of non-null highlight indices of element nodes
reachable from a node. -/
def nodeHighlightIndices : DOMNode → List Nat
  | .text _ _ => []
  | .elem d cs => d.highlightIndex.toList ++ listHighlightIndices cs

/-- Highlight indices reachable from a child list. -/
def listHighlightIndices : DOMList → List Nat
  | .nil => []
  | .cons c tl => nodeHighlightIndices c ++ listHighlightIndices tl
end

mutual
/-- A node occurs in a tree (the tree itself or inside a descendant). -/
def nodeOccurs (x : DOMNode) : DOMNode → Prop
  | .text t v => x = .text t v
  | .elem d cs => x = .elem d cs ∨ listOccurs x cs

/-- A node occurs in a child list. -/
def listOccurs (x : DOMNode) : DOMList → Prop
  | .nil => False
  | .cons c tl => nodeOccurs x c ∨ listOccurs x tl
end

/-- Object assignment only adds the assigned key to the key set. -/
theorem mapSet_keys_mem (m : List (Nat × DOMNode)) (k : Nat) (v : DOMNode)
    (i : Nat) : i ∈ mapKeys (mapSet m k v) ↔ i ∈ mapKeys m ∨ i = k := by
  unfold mapSet mapKeys
  split
  case isTrue h =>
    have hkeys : (m.map fun p => if p.1 = k then (k, v) else p).map Prod.fst =
        m.map Prod.fst := by
      rw [List.map_map]
      apply List.map_congr_left
      intro p _
      by_cases hp : p.1 = k
      · simp [hp]
      · simp [hp]
    rw [hkeys]
    have hk : k ∈ m.map Prod.fst := by
      rw [List.any_eq_true] at h
      obtain ⟨p, hp, hpk⟩ := h
      simp only [decide_eq_true_eq] at hpk
      exact hpk ▸ List.mem_map_of_mem Prod.fst hp
    constructor
    · exact Or.inl
    · rintro (hi | rfl)
      · exact hi
      · exact hk
  case isFalse h =>
    simp [List.map_append]

/-- Every entry of the object after assignment is an old entry or the
assigned pair. -/
theorem mapSet_entries (m : List (Nat × DOMNode)) (k : Nat) (v : DOMNode)
    (p : Nat × DOMNode) (hp : p ∈ mapSet m k v) : p ∈ m ∨ p = (k, v) := by
  unfold mapSet at hp
  split at hp
  case isTrue h =>
    rw [List.mem_map] at hp
    obtain ⟨q, hq, hqe⟩ := hp
    by_cases hqk : q.1 = k
    · simp only [hqk, if_true] at hqe
      exact Or.inr hqe.symm
    · simp only [hqk, if_false] at hqe
      exact Or.inl (hqe ▸ hq)
  case isFalse h =>
    rw [List.mem_append, List.mem_singleton] at hp
    exact hp

mutual
/-- Keys accumulated by `processNode` are the incoming keys plus the
highlight indices reachable from the node. -/
theorem processNode_keys_mem (m : List (Nat × DOMNode)) (n : DOMNode)
    (i : Nat) : i ∈ mapKeys (processNode m n) ↔
      i ∈ mapKeys m ∨ i ∈ nodeHighlightIndices n := by
  cases n with
  | text t v => simp [processNode, nodeHighlightIndices]
  | elem d cs =>
    cases hd : d.highlightIndex with
    | none =>
      rw [show processNode m (.elem d cs) = processList m cs by
        rw [processNode, hd]]
      rw [processList_keys_mem m cs i]
      simp [nodeHighlightIndices, hd]
    | some j =>
      rw [show processNode m (.elem d cs) =
          processList (mapSet m j (.elem d cs)) cs by rw [processNode, hd]]
      rw [processList_keys_mem (mapSet m j (.elem d cs)) cs i]
      rw [mapSet_keys_mem]
      simp only [nodeHighlightIndices, hd, Option.toList_some,
        List.mem_append, List.mem_singleton]
      tauto

/-- Keys accumulated by `processList` are the incoming keys plus the
highlight indices reachable from the list. -/
theorem processList_keys_mem (m : List (Nat × DOMNode)) (l : DOMList)
    (i : Nat) : i ∈ mapKeys (processList m l) ↔
      i ∈ mapKeys m ∨ i ∈ listHighlightIndices l := by
  cases l with
  | nil => simp [processList, listHighlightIndices]
  | cons c tl =>
    rw [show processList m (.cons c tl) = processList (processNode m c) tl
      from rfl]
    rw [processList_keys_mem (processNode m c) tl i]
    rw [processNode_keys_mem m c i]
    simp only [listHighlightIndices, List.mem_append]
    tauto
end

mutual
/-- Entries produced by `processNode` beyond the incoming ones are nodes
occurring in the tree and carrying the entry's key as highlight index. -/
theorem processNode_entries (m : List (Nat × DOMNode)) (n : DOMNode)
    (p : Nat × DOMNode) (hp : p ∈ processNode m n) :
    p ∈ m ∨ (nodeOccurs p.2 n ∧
      ∃ d cs, p.2 = .elem d cs ∧ d.highlightIndex = some p.1) := by
  cases n with
  | text t v =>
    rw [show processNode m (.text t v) = m from rfl] at hp
    exact Or.inl hp
  | elem d cs =>
    cases hd : d.highlightIndex with
    | none =>
      rw [show processNode m (.elem d cs) = processList m cs by
        rw [processNode, hd]] at hp
      rcases processList_entries m cs p hp with h | ⟨hocc, hrest⟩
      · exact Or.inl h
      · exact Or.inr ⟨Or.inr hocc, hrest⟩
    | some j =>
      rw [show processNode m (.elem d cs) =
          processList (mapSet m j (.elem d cs)) cs by rw [processNode, hd]] at hp
      rcases processList_entries (mapSet m j (.elem d cs)) cs p hp with
        h | ⟨hocc, hrest⟩
      · rcases mapSet_entries m j (.elem d cs) p h with h' | rfl
        · exact Or.inl h'
        · exact Or.inr ⟨Or.inl rfl, d, cs, rfl, hd⟩
      · exact Or.inr ⟨Or.inr hocc, hrest⟩

/-- Entries produced by `processList` beyond the incoming ones are nodes
occurring in the list and carrying the entry's key as highlight index. -/
theorem processList_entries (m : List (Nat × DOMNode)) (l : DOMList)
    (p : Nat × DOMNode) (hp : p ∈ processList m l) :
    p ∈ m ∨ (listOccurs p.2 l ∧
      ∃ d cs, p.2 = .elem d cs ∧ d.highlightIndex = some p.1) := by
  cases l with
  | nil =>
    rw [show processList m .nil = m from rfl] at hp
    exact Or.inl hp
  | cons c tl =>
    rw [show processList m (.cons c tl) = processList (processNode m c) tl
      from rfl] at hp
    rcases processList_entries (processNode m c) tl p hp with h | ⟨hocc, hrest⟩
    · rcases processNode_entries m c p h with h' | ⟨hocc, hrest⟩
      · exact Or.inl h'
      · exact Or.inr ⟨Or.inl hocc, hrest⟩
    · exact Or.inr ⟨Or.inr hocc, hrest⟩
end

/-- C5: for every DOM tree, the key set of the selector map built by
`_createSelectorMap` is exactly the set of non-null highlight indices of
element nodes reachable from the root; and every key maps to an element
node that occurs in the tree and carries that key as its highlight index
(no orphans, no omissions). -/
theorem createSelectorMap_keys_exact (root : DOMNode) :
    (∀ i, i ∈ mapKeys (createSelectorMap root) ↔
      i ∈ nodeHighlightIndices root) ∧
    (∀ i n, mapLookup (createSelectorMap root) i = some n →
      nodeOccurs n root ∧
        ∃ d cs, n = .elem d cs ∧ d.highlightIndex = some i) := by
  constructor
  · intro i
    rw [createSelectorMap, processNode_keys_mem]
    constructor
    · rintro (h | h)
      · exact absurd h (by simp [mapKeys])
      · exact h
    · exact Or.inr
  · intro i n hlook
    unfold mapLookup at hlook
    cases hfind : (createSelectorMap root).find? fun p => p.1 = i with
    | none => rw [hfind] at hlook; exact absurd hlook (by simp)
    | some p =>
      rw [hfind] at hlook
      simp only [Option.map_some', Option.some.injEq] at hlook
      have hmem := List.mem_of_find?_eq_some hfind
      have hkey : p.1 = i := by
        have := List.find?_some hfind
        simpa using this
      rcases processNode_entries [] root p hmem with h | ⟨hocc, hrest⟩
      · simp at h
      · rw [hlook] at hocc hrest
        exact ⟨hocc, hkey ▸ hrest⟩

/-- The spec scenario's snapshot: `<button id="go">Go</button>`,
interactive and visible, with highlight index 0, whose only child is the
text node `Go`. -/
def goButton : DOMNode :=
  .elem { tagName := "button", xpath := "html/body/button",
          attributes := [("id", "go")], isVisible := true,
          isInteractive := true, isTopElement := true,
          highlightIndex := some 0, shadowRoot := false }
    (.cons (.text "Go" true) .nil)

/-- Witness for C5 on the concrete one-button snapshot: the key set is
exactly `{0}` and key 0 maps to an occurring element with index 0. -/
theorem createSelectorMap_keys_exact_witness :
    (0 ∈ mapKeys (createSelectorMap goButton)) ∧
    (nodeOccurs goButton goButton ∧
      ∃ d cs, goButton = DOMNode.elem d cs ∧ d.highlightIndex = some 0) := by
  have h := createSelectorMap_keys_exact goButton
  exact ⟨(h.1 0).mpr (by decide), h.2 0 goButton rfl⟩

/-- C6 (evaluation at the failing input): on the one-button snapshot the
claimed serialization `0[:]<button>Go</button>` is not produced. The
inline-text traversal stops at the interactive button itself and returns
the empty string, and `clickableElementsToString` throws a `TypeError`
when its traversal reaches the text child (which lacks both a
`highlightIndex` property — so `undefined !== null` sends it into the
element branch — and the `getAllTextTillNextClickableElement` method).
The index-map half of the scenario does hold: the key list is `[0]`. -/
theorem goButton_serialization_fails :
    getAllTextTillNextClickableElement goButton = "" ∧
    clickableElementsToString goButton [] = .error "TypeError" ∧
    mapKeys (createSelectorMap goButton) = [0] := by
  refine ⟨by decide, rfl, by decide⟩

/-! ## Stable identity / history matcher (dom/history_tree_processor)

`_getParentBranchPath` walks the JS parent back-references; an element
with its ancestor chain is modelled as `ElemChain` (the spec's design
notes themselves suggest arena/parent-chain modelling). The sha256
digests of `_parentBranchPathHash` / `_attributesHash` are modelled by
the exact strings fed to `createHash('sha256').update(...)`: equal
inputs give equal real digests, so every hash *equality* proved here
holds verbatim for the sha256-hashed values. -/

/-- The per-element fields read by the history processor. -/
structure ElemCore where
  tagName : String
  xpath : String := ""
  attributes : List (String × String) := []
  highlightIndex : Option Nat := none
  shadowRoot : Bool := false
deriving Repr, DecidableEq

/-- An element node together with its chain of parent back-references up
to the root (`parent === null` at `root`). -/
inductive ElemChain : Type where
  | root (core : ElemCore) : ElemChain
  | child (core : ElemCore) (parent : ElemChain) : ElemChain
deriving Repr, DecidableEq

/-- The element's own fields. -/
def ElemChain.core : ElemChain → ElemCore
  | .root c => c
  | .child c _ => c

/-- `HistoryTreeProcessor._getParentBranchPath`: pushes the element and
each ancestor while `currentElement.parent` exists (so the root itself is
never pushed), reverses, and maps to tag names — the tag path from the
root's child down to and including the element, the root's tag excluded. -/
def getParentBranchPath : ElemChain → List String
  | .root _ => []
  | .child c p => getParentBranchPath p ++ [c.tagName]

/-- Specification-side full root-to-element tag path (root's tag first). -/
def chainTags : ElemChain → List String
  | .root c => [c.tagName]
  | .child c p => chainTags p ++ [c.tagName]

/-- `DOMHistoryElement` (the serializable projection recorded in history). -/
structure DOMHistoryElement where
  tagName : String
  xpath : String
  highlightIndex : Option Nat
  entireParentBranchPath : List String
  attributes : List (String × String)
  shadowRoot : Bool
deriving Repr, DecidableEq

/-- `HistoryTreeProcessor.convertDomElementToHistoryElement`. -/
def convertDomElementToHistoryElement (e : ElemChain) : DOMHistoryElement :=
  { tagName := e.core.tagName
    xpath := e.core.xpath
    highlightIndex := e.core.highlightIndex
    entireParentBranchPath := getParentBranchPath e
    attributes := e.core.attributes
    shadowRoot := e.core.shadowRoot }

/-- `HistoryTreeProcessor._parentBranchPathHash`: sha256 over the path
joined by `/`; modelled by the digest input `parentBranchPathString`. -/
def parentBranchPathHash (parentBranchPath : List String) : String :=
  String.intercalate "/" parentBranchPath

/-- `HistoryTreeProcessor._attributesHash`: sha256 over the `key=value`
pairs concatenated in insertion order with no separator; modelled by the
digest input `attributesString`. -/
def attributesHash (attributes : List (String × String)) : String :=
  String.join (attributes.map fun kv => kv.1 ++ "=" ++ kv.2)

/-- `HashedDomElement`. -/
structure HashedDomElement where
  branchPathHash : String
  attributesHash : String
deriving Repr, DecidableEq

/-- `HistoryTreeProcessor._hashDomElement`. -/
def hashDomElement (e : ElemChain) : HashedDomElement :=
  { branchPathHash := parentBranchPathHash (getParentBranchPath e)
    attributesHash := attributesHash e.core.attributes }

/-- `HistoryTreeProcessor._hashDomHistoryElement`. -/
def hashDomHistoryElement (h : DOMHistoryElement) : HashedDomElement :=
  { branchPathHash := parentBranchPathHash h.entireParentBranchPath
    attributesHash := attributesHash h.attributes }

/-- `HistoryTreeProcessor.compareHistoryElementAndDomElement`. -/
def compareHistoryElementAndDomElement (h : DOMHistoryElement)
    (e : ElemChain) : Bool :=
  hashDomHistoryElement h = hashDomElement e

/-- A `div` with attribute map `{a: "b=c"}`. -/
def collidingElemA : ElemChain :=
  .root { tagName := "div", attributes := [("a", "b=c")] }

/-- A `div` with the different attribute map `{a=b: "c"}`. -/
def collidingElemB : ElemChain :=
  .root { tagName := "div", attributes := [("a=b", "c")] }

/-- Counterexample for C7: the "iff" fails right-to-left. Two root
elements with different attribute maps — `a ↦ b=c` versus `a=b ↦ c` —
serialize to the same digest input `a=b=c` (and share the empty branch
path), so both sha256 hashes agree while the attribute maps differ; the
same happens for branch paths via a tag containing `/` (`a/b` vs
`a`,`b`). -/
theorem hash_equal_despite_different_elements :
    (hashDomElement collidingElemA = hashDomElement collidingElemB) ∧
    collidingElemA.core.attributes ≠ collidingElemB.core.attributes ∧
    (parentBranchPathHash ["a/b"] = parentBranchPathHash ["a", "b"]) ∧
    (["a/b"] : List String) ≠ ["a", "b"] := by
  refine ⟨by decide, by decide, by decide, by decide⟩

/-- C7 (amended): identical ancestor-tag sequences and identical
attribute maps do imply equal hashed identity surrogates (order-sensitive
in both); the converse direction of the claimed "iff" is false because
the serializations (a `/`-join and an unseparated `key=value`
concatenation) are not injective. -/
theorem hash_eq_of_same_path_and_attributes (e₁ e₂ : ElemChain)
    (hpath : chainTags e₁ = chainTags e₂)
    (hattrs : e₁.core.attributes = e₂.core.attributes) :
    hashDomElement e₁ = hashDomElement e₂ := by
  have hbp : getParentBranchPath e₁ = getParentBranchPath e₂ := by
    have h1 : ∀ e : ElemChain, getParentBranchPath e = (chainTags e).tail := by
      intro e
      induction e with
      | root c => rfl
      | child c p ih =>
        have hne : chainTags p ≠ [] := by
          cases p <;> simp [chainTags]
        rw [getParentBranchPath, chainTags, ih, List.tail_append_of_ne_nil]
        exact hne
    rw [h1, h1, hpath]
  unfold hashDomElement
  rw [hbp, hattrs]

/-- A `html → button` chain. -/
def buttonChainA : ElemChain :=
  .child { tagName := "button", attributes := [("id", "go")] }
    (.root { tagName := "html", xpath := "/html" })

/-- A structurally different `html → button` chain with the same tag path
and attribute map (different xpath and highlight index). -/
def buttonChainB : ElemChain :=
  .child { tagName := "button", attributes := [("id", "go")], highlightIndex := some 3 }
    (.root { tagName := "html", xpath := "/other" })

/-- Witness for the amended C7 at concrete elements: two distinct chains
with equal tag paths and equal attribute maps hash identically. -/
theorem hash_eq_of_same_path_and_attributes_witness :
    hashDomElement buttonChainA = hashDomElement buttonChainB := by
  exact hash_eq_of_same_path_and_attributes _ _ (by decide) (by decide)

/-- A two-element tree `html → div`, as a parent chain. -/
def divUnderHtml : ElemChain :=
  .child { tagName := "div" } (.root { tagName := "html" })

/-- Counterexample for C8: the recorded branch path does not start with
the root's tag. For `html → div`, the history element's path is `[div]`,
although the root's tag is `html` and the full root-to-element path is
`[html, div]`. -/
theorem branch_path_excludes_root_tag :
    (convertDomElementToHistoryElement divUnderHtml).entireParentBranchPath =
      ["div"] ∧
    chainTags divUnderHtml = ["html", "div"] ∧
    (["div"] : List String).head? ≠ some "html" := by
  refine ⟨by decide, by decide, by decide⟩

/-- C8 (amended): the History Element's `entireParentBranchPath` is the
ordered root-to-element tag path with the root's own tag removed — it
starts at the root's first-level child and ends with the element's own
tag (and is empty for the root itself). -/
theorem branch_path_is_tail_of_root_path (e : ElemChain) :
    (convertDomElementToHistoryElement e).entireParentBranchPath =
      (chainTags e).tail ∧
    (∀ c p, e = .child c p →
      (convertDomElementToHistoryElement e).entireParentBranchPath.getLast? =
        some c.tagName) ∧
    (∀ c, e = .root c →
      (convertDomElementToHistoryElement e).entireParentBranchPath = []) := by
  refine ⟨?_, ?_, ?_⟩
  · show getParentBranchPath e = (chainTags e).tail
    induction e with
    | root c => rfl
    | child c p ih =>
      have hne : chainTags p ≠ [] := by
        cases p <;> simp [chainTags]
      rw [getParentBranchPath, chainTags, ih, List.tail_append_of_ne_nil]
      exact hne
  · rintro c p rfl
    show (getParentBranchPath (.child c p)).getLast? = some c.tagName
    rw [getParentBranchPath]
    simp
  · rintro c rfl
    rfl

/-- A three-element chain `html → body → a`. -/
def anchorChain : ElemChain :=
  .child { tagName := "a" }
    (.child { tagName := "body" } (.root { tagName := "html" }))

/-- Witness for the amended C8 at a concrete chain `html → body → a`. -/
theorem branch_path_is_tail_of_root_path_witness :
    (convertDomElementToHistoryElement anchorChain).entireParentBranchPath =
      (chainTags anchorChain).tail ∧
    (convertDomElementToHistoryElement
        anchorChain).entireParentBranchPath.getLast? = some "a" := by
  have h := branch_path_is_tail_of_root_path anchorChain
  exact ⟨h.1, h.2.1 _ _ rfl⟩

/-! ## Context window manager (agent/message_manager/service.js)

Token counts are `Int` (the code subtracts freely). JS string `.length`
is modelled as the length of the character list. `_countTextTokens` is
modelled by its deterministic fallback
`Math.floor(text.length / ESTIMATED_TOKENS_PER_CHARACTER)` (the
`llm.tokenCount` branches depend on the external model client). The
float comparison `proportionToRemove > 0.99` and the float
`Math.floor(length * proportionToRemove)` are modelled by exact rational
arithmetic; they agree except possibly within one double ulp of the
threshold, and every concrete input used below is far from it. -/

/-- One item of an array-valued message content: `{text}` or
`{image_url}`. -/
inductive MsgPart : Type where
  | textPart (s : String)
  | imagePart
deriving Repr, DecidableEq

/-- Message content: a plain string or an ordered part list. -/
inductive MsgContent : Type where
  | str (s : String)
  | parts (l : List MsgPart)
deriving Repr, DecidableEq

/-- A chat message. -/
structure Message where
  role : String
  content : MsgContent
deriving Repr, DecidableEq

/-- A history record: message plus `metadata.inputTokens`. -/
structure MessageRecord where
  message : Message
  inputTokens : Int
deriving Repr, DecidableEq

/-- The `MessageManager`'s mutable state and configuration. -/
structure MMState where
  messages : List MessageRecord
  totalTokens : Int
  maxInputTokens : Int
  estimatedTokensPerCharacter : Nat := 3
  imgTokens : Int := 800
  maxErrorLength : Nat := 400
deriving Repr, DecidableEq

/-- JS string `.length`. -/
def strLength (s : String) : Nat := s.data.length

/-- `MessageManager._countTextTokens` (fallback branch):
`Math.floor(text.length / ESTIMATED_TOKENS_PER_CHARACTER)`. The JS value
for a zero ratio would be `Infinity`; all theorems assume a positive
ratio (the default is 3). -/
def countTextTokens (est : Nat) (s : String) : Int :=
  (strLength s / est : Nat)

/-- `MessageManager._countTokens`: images cost the flat `IMG_TOKENS`,
text parts their estimated cost; plain strings their estimated cost. -/
def countTokens (est : Nat) (img : Int) (m : Message) : Int :=
  match m.content with
  | .str s => countTextTokens est s
  | .parts l =>
    (l.map fun p =>
      match p with
      | .imagePart => img
      | .textPart s => countTextTokens est s).sum

/-- `MessageManager._addMessageWithTokens`. -/
def addMessageWithTokens (st : MMState) (m : Message) : MMState :=
  let tokens := countTokens st.estimatedTokensPerCharacter st.imgTokens m
  { st with messages := st.messages ++ [⟨m, tokens⟩]
            totalTokens := st.totalTokens + tokens }

/-- `MessageManager._removeMessage` at the default index `-1` (the only
way the code ever calls it). JavaScript arrays have no negative bracket
indices: `this.history.messages[-1]` is an ordinary property lookup and
is `undefined` for every array, whatever its length, so the very next
line `msg.metadata.inputTokens` faults with a TypeError on every call —
before the `totalTokens` subtraction and the `splice` run. The call
never removes a record and never changes a field; it only throws.
Modelled as the unchanged state paired with the thrown error. -/
def removeMessage (st : MMState) : MMState × Option String :=
  (st, some "TypeError")

/-- The role of the newest record, if any. -/
def lastRole (st : MMState) : Option String :=
  st.messages.getLast?.map fun r => r.message.role

/-- `MessageManager._removeLastStateMessage`: when more than two
messages exist and the newest record's role is `user`, it calls
`this._removeMessage()` — which always throws a TypeError before
mutating anything (see `removeMessage`) — and otherwise does nothing.
Either way the history is left unchanged; the intended removal of the
provisional state message never happens. -/
def removeLastStateMessage (st : MMState) : MMState × Option String :=
  if 2 < st.messages.length ∧ lastRole st = some "user" then
    removeMessage st
  else (st, none)

/-- `MessageManager.addModelOutput`: appends an assistant message whose
content is `JSON.stringify(modelOutput)`, supplied here as the already
serialized string. -/
def addModelOutput (st : MMState) (serialized : String) : MMState :=
  addMessageWithTokens st ⟨"assistant", .str serialized⟩

/-- JS `s.slice(-n)` (last `n` characters); `slice(-0)` is `slice(0)`,
the whole string. -/
def sliceLast (s : String) (n : Nat) : String :=
  if n = 0 then s else ⟨s.data.drop (s.data.length - n)⟩

/-- `MessageManager.addStateMessage`: for each prior result with truthy
`includeInMemory`, append its truthy `extractedContent` and the last
`maxErrorLength` characters of its truthy `error` as user messages; then
append the state message built by `AgentMessagePrompt.getUserMessage`
(supplied here as `stateMessage`). -/
def addStateMessage (st : MMState) (result : Option (List ActionResult))
    (stateMessage : Message) : MMState :=
  let st1 :=
    match result with
    | none => st
    | some rs =>
      rs.foldl
        (fun acc r =>
          if truthyBool r.includeInMemory then
            let acc :=
              if truthyStr r.extractedContent then
                addMessageWithTokens acc
                  ⟨"user", .str (r.extractedContent.getD "")⟩
              else acc
            if truthyStr r.error then
              addMessageWithTokens acc
                ⟨"user", .str (sliceLast (r.error.getD "") acc.maxErrorLength)⟩
            else acc
          else acc)
        st
  addMessageWithTokens st1 stateMessage

/-- Whether a part is an `image_url` item. -/
def MsgPart.isImage : MsgPart → Bool
  | .imagePart => true
  | .textPart _ => false

/-- The text of a `{text}` item. -/
def MsgPart.text? : MsgPart → Option String
  | .imagePart => none
  | .textPart s => some s

/-- The context-overflow error thrown by `cutMessages` (its numeric
`proportion_to_remove` tail is elided; no behaviour depends on it). -/
def overflowErrorMessage : String :=
  "Max token limit reached - history is too long - reduce the system prompt or task less tasks or remove old messages. proportion_to_remove: "

/-- Step 3 of `cutMessages` (the `Array.isArray(content)` branch): every
`image_url` item is filtered out of the newest message, each subtracting
`IMG_TOKENS` from its record and from the running total, and the content
is replaced by the concatenation of its text items — a plain string.
A string-valued content is left untouched. Returns the updated state and
the updated newest record. -/
def dropImagesFromLast (st : MMState) (lastMsg : MessageRecord) :
    MMState × MessageRecord :=
  match lastMsg.message.content with
  | .parts l =>
    let imgCount : Int := ((l.countP MsgPart.isImage : Nat) : Int)
    let text := String.join (l.filterMap MsgPart.text?)
    let last' : MessageRecord :=
      ⟨⟨lastMsg.message.role, .str text⟩,
       lastMsg.inputTokens - st.imgTokens * imgCount⟩
    ({ st with
        messages := st.messages.dropLast ++ [last']
        totalTokens := st.totalTokens - st.imgTokens * imgCount },
     last')
  | .str _ => (st, lastMsg)

/-- `MessageManager.cutMessages`. Returns the state after the call and
the thrown error, if any (state mutations made before a throw persist,
as in JS). Control flow, matching the source line by line:
1. `diff = totalTokens - maxInputTokens`; return if `diff ≤ 0`.
2. Read the newest record (on an empty history the JS faults with a
   `TypeError`; unreachable under the theorems' hypotheses).
3. If its content is an array: remove every `image_url` item (each
   subtracts `IMG_TOKENS` from the record and the total) and replace the
   content by the concatenation of its text items — a plain string now.
4. Return if no longer over budget.
5. `proportionToRemove = diff / inputTokens` — the *original* `diff`
   over the *updated* newest token count. Throw the overflow error if it
   exceeds `0.99`. The float test `diff / inputTokens > 0.99` is rendered
   exactly as `0 ≤ inputTokens ∧ 99 * inputTokens < 100 * diff` — see
   `throw_condition_models_float_test` for the proof that the two
   coincide (covering the `Infinity` quotient at `inputTokens = 0` and a
   negative quotient at `inputTokens < 0`).
6. Otherwise compute `charactersToRemove` and the sliced `newContent`
   (locals only), then call `this._removeMessage()` — which reads
   `messages[-1]`, `undefined` in JavaScript, and faults with a
   TypeError before removing anything (see `removeMessage`), so the
   trimmed message is never re-added: the trim branch always throws,
   leaving the post-image-drop state behind. -/
def cutMessages (st : MMState) : MMState × Option String :=
  let diff := st.totalTokens - st.maxInputTokens
  if diff ≤ 0 then (st, none)
  else
    match st.messages.getLast? with
    | none => (st, some "TypeError")
    | some lastMsg =>
      let p := dropImagesFromLast st lastMsg
      if p.1.totalTokens - p.1.maxInputTokens ≤ 0 then (p.1, none)
      else
        if 0 ≤ p.2.inputTokens ∧ 99 * p.2.inputTokens < 100 * diff then
          (p.1, some overflowErrorMessage)
        else
          (p.1, some "TypeError")

/-- `MessageManager.getMessages`: calls `cutMessages()` first, then
returns the message list (or propagates the throw — the overflow error
or the trim branch's TypeError — with the partially mutated state). -/
def getMessages (st : MMState) : MMState × Except String (List Message) :=
  match cutMessages st with
  | (st', some e) => (st', .error e)
  | (st', none) => (st', .ok (st'.messages.map fun r => r.message))

/-- The `MessageManager` constructor: starts from an empty history and
enqueues the system message (from `systemPromptClass`) and the initial
task message `Your task is: <task>`. -/
def initMessageManager (systemMessage : Message) (task : String)
    (maxInputTokens : Int := 128000) (est : Nat := 3) (img : Int := 800)
    (maxErr : Nat := 400) : MMState :=
  let st0 : MMState :=
    { messages := [], totalTokens := 0, maxInputTokens := maxInputTokens,
      estimatedTokensPerCharacter := est, imgTokens := img,
      maxErrorLength := maxErr }
  addMessageWithTokens (addMessageWithTokens st0 systemMessage)
    ⟨"user", .str ("Your task is: " ++ task)⟩

/-- The history invariant of the data model: the running total equals
the sum of the per-record token counts. -/
def TokenInvariant (st : MMState) : Prop :=
  st.totalTokens = (st.messages.map fun r => r.inputTokens).sum

/-- Decomposing a list at its last element. -/
theorem sum_map_of_getLast? {α : Type} (l : List α) (f : α → Int)
    (r : α) (h : l.getLast? = some r) :
    (l.map f).sum = (l.dropLast.map f).sum + f r := by
  have hne : l ≠ [] := by
    intro hnil
    rw [hnil] at h
    simp at h
  have hdecomp : l.dropLast ++ [l.getLast hne] = l :=
    List.dropLast_concat_getLast hne
  have hr : l.getLast hne = r := by
    have := List.getLast?_eq_getLast l hne
    rw [h] at this
    exact (Option.some.injEq _ _).mp this.symm
  conv_lhs => rw [← hdecomp]
  rw [List.map_append, List.sum_append, hr]
  simp

/-- `_addMessageWithTokens` preserves the token invariant. -/
theorem tokenInvariant_add (st : MMState) (m : Message)
    (h : TokenInvariant st) : TokenInvariant (addMessageWithTokens st m) := by
  unfold TokenInvariant addMessageWithTokens at *
  simp [h]

/-- `_removeMessage` preserves the token invariant: it faults before
mutating anything, so the state it leaves behind is the input state. -/
theorem tokenInvariant_removeMessage (st : MMState)
    (h : TokenInvariant st) : TokenInvariant (removeMessage st).1 := h

/-- The image-removal step preserves the token invariant. -/
theorem tokenInvariant_dropImages (st : MMState) (lastMsg : MessageRecord)
    (hl : st.messages.getLast? = some lastMsg)
    (h : TokenInvariant st) :
    TokenInvariant (dropImagesFromLast st lastMsg).1 := by
  unfold TokenInvariant dropImagesFromLast at *
  cases hc : lastMsg.message.content with
  | str s => simpa [hc] using h
  | parts l =>
    have hsum : (st.messages.map fun rec => rec.inputTokens).sum =
        (st.messages.dropLast.map fun rec => rec.inputTokens).sum +
          lastMsg.inputTokens := by
      simpa using sum_map_of_getLast? st.messages
        (fun rec => rec.inputTokens) lastMsg hl
    simp only [hc]
    simp only [List.map_append, List.sum_append, List.map_cons,
      List.map_nil, List.sum_cons, List.sum_nil]
    rw [hsum] at h
    omega

/-- `cutMessages` preserves the token invariant on every path: the
early returns, the image-drop branch, and the states left behind by the
overflow throw and by the trim branch's TypeError (which faults before
mutating anything beyond the image drop). -/
theorem tokenInvariant_cut (st : MMState) (h : TokenInvariant st) :
    TokenInvariant (cutMessages st).1 := by
  unfold cutMessages
  split
  · dsimp only
    split
    · exact h
    · exact h
  · next lastMsg heq =>
    have h1 := tokenInvariant_dropImages st lastMsg heq h
    dsimp only
    split
    · exact h
    · split
      · exact h1
      · split
        · exact h1
        · exact h1

/-- The result-folding part of `addStateMessage` preserves the invariant. -/
theorem tokenInvariant_addStateFold (rs : List ActionResult) :
    ∀ st : MMState, TokenInvariant st →
    TokenInvariant (rs.foldl
      (fun acc r =>
        if truthyBool r.includeInMemory then
          let acc :=
            if truthyStr r.extractedContent then
              addMessageWithTokens acc
                ⟨"user", .str (r.extractedContent.getD "")⟩
            else acc
          if truthyStr r.error then
            addMessageWithTokens acc
              ⟨"user", .str (sliceLast (r.error.getD "") acc.maxErrorLength)⟩
          else acc
        else acc)
      st) := by
  induction rs with
  | nil => intro st h; exact h
  | cons r rest ih =>
    intro st h
    rw [List.foldl_cons]
    apply ih
    dsimp only
    split
    · split
      · split
        · exact tokenInvariant_add _ _ (tokenInvariant_add _ _ h)
        · exact tokenInvariant_add _ _ h
      · split
        · exact tokenInvariant_add _ _ h
        · exact h
    · exact h

/-- C4: the history invariant `totalTokens = Σ record.inputTokens` holds
after construction and is preserved by every `MessageManager` operation:
`addStateMessage`, `addModelOutput`, `_removeLastStateMessage`,
`_removeMessage`, and `cutMessages` on every path — the image-drop
branch, the state an overflow throw leaves behind, and the
proportional-cut branch, which faults with a TypeError inside
`_removeMessage` before mutating anything beyond the image drop, so the
state it leaves also satisfies the invariant. -/
theorem tokenInvariant_holds_and_preserved :
    (∀ (systemMessage : Message) (task : String) (mt : Int) (e : Nat)
      (im : Int) (me : Nat),
      TokenInvariant (initMessageManager systemMessage task mt e im me)) ∧
    (∀ st : MMState, TokenInvariant st →
      (∀ m, TokenInvariant (addMessageWithTokens st m)) ∧
      TokenInvariant (removeMessage st).1 ∧
      TokenInvariant (removeLastStateMessage st).1 ∧
      (∀ out, TokenInvariant (addModelOutput st out)) ∧
      (∀ result stateMessage,
        TokenInvariant (addStateMessage st result stateMessage)) ∧
      TokenInvariant (cutMessages st).1) := by
  constructor
  · intro systemMessage task mt e im me
    apply tokenInvariant_add
    apply tokenInvariant_add
    unfold TokenInvariant
    simp
  · intro st h
    refine ⟨fun m => tokenInvariant_add st m h,
      tokenInvariant_removeMessage st h, ?_,
      fun out => tokenInvariant_add _ _ h, ?_,
      tokenInvariant_cut st h⟩
    · unfold removeLastStateMessage
      split
      · exact tokenInvariant_removeMessage st h
      · exact h
    · intro result stateMessage
      unfold addStateMessage
      apply tokenInvariant_add
      cases result with
      | none => exact h
      | some rs => exact tokenInvariant_addStateFold rs st h

/-- Witness for C4 at a concrete state: the invariant holds for the
constructed manager and is preserved by a cut on a concrete over-budget
state. -/
theorem tokenInvariant_holds_and_preserved_witness :
    TokenInvariant (initMessageManager ⟨"system", .str "be precise"⟩
      "buy milk" 1000 3 800 400) ∧
    TokenInvariant (cutMessages (initMessageManager
      ⟨"system", .str "be precise"⟩ "buy milk" 1000 3 800 400)).1 := by
  have h0 := tokenInvariant_holds_and_preserved.1
    ⟨"system", .str "be precise"⟩ "buy milk" 1000 3 800 400
  have h1 := (tokenInvariant_holds_and_preserved.2 _ h0).2.2.2.2.2
  exact ⟨h0, h1⟩

/-- A concrete three-message history (system, task, provisional state). -/
def mm3 : MMState :=
  { messages := [⟨⟨"system", .str "sys"⟩, 1⟩, ⟨⟨"user", .str "task"⟩, 1⟩,
      ⟨⟨"user", .str "state"⟩, 1⟩],
    totalTokens := 3, maxInputTokens := 100 }

/-- C10: code bug. `_removeLastStateMessage` never removes a message:
for every state the history it leaves is the input history, because
whenever its guard (more than two messages and a newest `user` role)
holds it calls `_removeMessage()`, which reads `messages[-1]` —
`undefined` in JavaScript — and throws a TypeError before any mutation.
On the concrete three-message history `mm3` (system, task, provisional
state message), where the claim says exactly the last record is
removed, the call throws and all three records survive. -/
theorem removeLastStateMessage_throws :
    (∀ st : MMState, (removeLastStateMessage st).1 = st) ∧
    2 < mm3.messages.length ∧ lastRole mm3 = some "user" ∧
    removeLastStateMessage mm3 = (mm3, some "TypeError") ∧
    (removeLastStateMessage mm3).1.messages = mm3.messages := by
  refine ⟨?_, by decide, by decide, rfl, rfl⟩
  intro st
  unfold removeLastStateMessage
  split
  · rfl
  · rfl

/-! ### Observables of `cutMessages` (C3) -/

/-- The running total after the image-drop step of `cutMessages`
(unchanged when the newest content is a plain string or absent). -/
def totalAfterImageDrop (st : MMState) : Int :=
  match st.messages.getLast? with
  | none => st.totalTokens
  | some r =>
    match r.message.content with
    | .str _ => st.totalTokens
    | .parts l => st.totalTokens - st.imgTokens * (l.countP MsgPart.isImage : Nat)

/-- The newest record's token cost after the image-drop step. -/
def newestCostAfterImageDrop (st : MMState) : Int :=
  match st.messages.getLast? with
  | none => 0
  | some r =>
    match r.message.content with
    | .str _ => r.inputTokens
    | .parts l => r.inputTokens - st.imgTokens * (l.countP MsgPart.isImage : Nat)

/-- Every record's metadata token count is what `_countTokens` assigns
its message (true of every record created by `_addMessageWithTokens`). -/
def WellFormedTokens (st : MMState) : Prop :=
  ∀ r ∈ st.messages,
    r.inputTokens = countTokens st.estimatedTokensPerCharacter st.imgTokens r.message

/-- The source's float test `proportionToRemove > 0.99` coincides with
the integer condition used in this embedding, for any cost sign and a
positive overshoot: at cost `0` the JS quotient is `Infinity` (throws);
at negative cost the quotient is negative (does not throw). -/
theorem throw_condition_models_float_test (c d : Int) (hd : 1 ≤ d) :
    (0 ≤ c ∧ 99 * c < 100 * d) ↔
      (c = 0 ∨ (99 : ℚ) / 100 < (d : ℚ) / (c : ℚ)) := by
  constructor
  · rintro ⟨hc, hlt⟩
    rcases eq_or_lt_of_le hc with hc0 | hcpos
    · exact Or.inl hc0.symm
    · right
      have hcq : (0 : ℚ) < (c : ℚ) := by exact_mod_cast hcpos
      have h3 : (99 : ℚ) * (c : ℚ) < (100 : ℚ) * (d : ℚ) := by
        exact_mod_cast hlt
      exact (div_lt_div_iff₀ (by norm_num) hcq).mpr (by linarith)
  · rintro (rfl | hlt)
    · omega
    · rcases lt_trichotomy c 0 with hneg | hc0 | hcpos
      · exfalso
        have hdq : (0 : ℚ) < (d : ℚ) := by exact_mod_cast hd
        have hcq : (c : ℚ) < 0 := by exact_mod_cast hneg
        have : (d : ℚ) / (c : ℚ) < 0 := div_neg_of_pos_of_neg hdq hcq
        linarith
      · omega
      · constructor
        · omega
        · have hcq : (0 : ℚ) < (c : ℚ) := by exact_mod_cast hcpos
          have h2 : (99 : ℚ) * (c : ℚ) < (d : ℚ) * 100 :=
            (div_lt_div_iff₀ (by norm_num) hcq).mp hlt
          have h3 : (99 : ℚ) * (c : ℚ) < (100 : ℚ) * (d : ℚ) := by
            linarith
          exact_mod_cast h3

/-! ### Concrete `MessageManager` states for C3 -/

/-- A history over budget whose newest message is one text part (30
characters, 10 tokens at the default ratio 3) plus one image part (800
tokens): record cost `810`, budget `9`. After the image drop the
remaining overshoot is `1` against a newest cost of `10` — a proportion
of `0.1` — yet `cutMessages` tests the *original* overshoot `801`
against the post-drop cost and throws. -/
def stA : MMState :=
  { messages := [⟨⟨"user",
      .parts [.textPart "aaaaaaaaaaaaaaaaaaaaaaaaaaaaaa", .imagePart]⟩,
      810⟩],
    totalTokens := 810, maxInputTokens := 9 }

/-- A history over budget whose newest message is ten text parts of four
characters each: each part costs `floor(4/3) = 1` token, so the record
costs `10` against a budget of `9`. The post-drop overshoot is `1`
against a newest cost of `10` — a proportion of `0.1`, well under
`0.99` — so the claim demands a successful proportional trim; the
program instead faults with a TypeError inside `_removeMessage`. -/
def stB : MMState :=
  { messages := [⟨⟨"user",
      .parts [.textPart "abcd", .textPart "abcd", .textPart "abcd",
        .textPart "abcd", .textPart "abcd", .textPart "abcd",
        .textPart "abcd", .textPart "abcd", .textPart "abcd",
        .textPart "abcd"]⟩, 10⟩],
    totalTokens := 10, maxInputTokens := 9 }

/-! ## The orchestrator step (`Agent.step`, `Agent._handleStepError`) -/

/-- A thrown JavaScript value as `_handleStepError` inspects it:
whether it is an `Error` instance, its `name`, and its `message`. -/
structure JsError where
  isErrorInstance : Bool := true
  name : String := "Error"
  message : String
deriving Repr, DecidableEq

/-- `sub` is an initial segment of `s` (JS `startsWith` on char lists). -/
def startsWithList : List Char → List Char → Bool
  | [], _ => true
  | _ :: _, [] => false
  | a :: as, b :: bs => if a = b then startsWithList as bs else false

/-- `sub` occurs contiguously somewhere in `s`. -/
def subOccurs (sub : List Char) : List Char → Bool
  | [] => sub.isEmpty
  | c :: rest => startsWithList sub (c :: rest) || subOccurs sub rest

/-- JS `String.prototype.includes`. -/
def jsIncludes (s sub : String) : Bool := subOccurs sub.data s.data

/-- `Agent._formatError` with `includeTrace = false` (the
`console.debugEnabled` flag is never set): `error.message ||
String(error)`, where `String(error)` on an `Error` with an empty
message is just its `name`. -/
def formatError (e : JsError) : String :=
  if e.message = "" then e.name else e.message

/-- The slice of the `Agent`'s state that `step` and `_handleStepError`
read and write: the message manager, `lastResult`,
`consecutiveFailures`, and the agent's *configured* `maxInputTokens`
(`this.maxInputTokens`, distinct from the message manager's current
`maxInputTokens`, which `_handleStepError` overwrites). -/
structure AgentSt where
  mm : MMState
  lastResult : List ActionResult
  consecutiveFailures : Nat
  maxInputTokens : Int
deriving Repr, DecidableEq

/-- The message manager after `_handleStepError`'s token-limit branch
reassigns `this.messageManager.maxInputTokens = this.maxInputTokens -
500`. -/
def shrunkManager (ag : AgentSt) : MMState :=
  { ag.mm with maxInputTokens := ag.maxInputTokens - 500 }

/-- `Agent._handleStepError`, line by line. Three branches, each ending
in `consecutiveFailures++` and returning the single result
`[ error := errorMsg, includeInMemory := true ]` (written with square
brackets here for the JS object literal):
* an `Error` whose message contains `'validation failed'` — and, if it
  also contains `'Max token limit reached'`, first shrink the message
  manager's budget and re-run `cutMessages()`. That call can itself
  throw — the context-overflow error when the overshoot exceeds 0.99 of
  the newest cost, or the TypeError its trim branch always raises
  inside `_removeMessage()` — and the throw happens *before*
  `consecutiveFailures++`, so it escapes `_handleStepError` with the
  counter unchanged (the budget reassignment and any image-drop
  mutation, being completed, persist);
* a `RateLimitError` by name (its `setTimeout(() => {}, ...)` is a
  no-op: nothing awaits the timer);
* everything else.
The returned pair is the mutated agent state plus either the result
list or the escaped throw. -/
def handleStepError (ag : AgentSt) (e : JsError) :
    AgentSt × Except String (List ActionResult) :=
  let errorMsg := formatError e
  if e.isErrorInstance && jsIncludes e.message "validation failed" then
    if jsIncludes e.message "Max token limit reached" then
      match cutMessages (shrunkManager ag) with
      | (mm2, some err) => ({ ag with mm := mm2 }, .error err)
      | (mm2, none) =>
        ({ ag with
            mm := mm2
            consecutiveFailures := ag.consecutiveFailures + 1 },
         .ok [{ error := some errorMsg, includeInMemory := some true }])
    else
      ({ ag with consecutiveFailures := ag.consecutiveFailures + 1 },
       .ok [{ error := some errorMsg, includeInMemory := some true }])
  else if e.name = "RateLimitError" then
    ({ ag with consecutiveFailures := ag.consecutiveFailures + 1 },
     .ok [{ error := some errorMsg, includeInMemory := some true }])
  else
    ({ ag with consecutiveFailures := ag.consecutiveFailures + 1 },
     .ok [{ error := some errorMsg, includeInMemory := some true }])

/-- `Agent.step`'s `catch`/`finally` logic. `ag` is the agent state at
the moment the `try` block completes or throws (the `try` body's own
message-manager mutations are already folded into it), and
`bodyOutcome` is the `try` block's outcome: the `result` list from
`multiAct`, or the thrown error.
* Success: `this.lastResult = result` and `this.consecutiveFailures =
  0`.
* Caught error: `result = this._handleStepError(error); this.lastResult
  = result`.
* If `_handleStepError` itself throws (the re-run `cutMessages()`), the
  assignment to `result` never completes, so `result` is still the `[]`
  it was initialized to — and the `finally` block's
  `if (!result.length) return;` executes a `return`, which in
  JavaScript *discards the pending exception*: `step` returns normally
  with no result, no `lastResult` update, and no counter change.
The returned pair is the final agent state and the step's `result`
list. -/
def step (ag : AgentSt) (bodyOutcome : Except JsError (List ActionResult)) :
    AgentSt × List ActionResult :=
  match bodyOutcome with
  | .ok res =>
    ({ ag with lastResult := res, consecutiveFailures := 0 }, res)
  | .error e =>
    match handleStepError ag e with
    | (ag1, .ok res) => ({ ag1 with lastResult := res }, res)
    | (ag1, .error _) => (ag1, [])

/-- The carved-out case of `_handleStepError`: the error message holds
both trigger substrings and the re-run `cutMessages` on the shrunken
budget throws (either the context-overflow error or the trim branch's
TypeError). -/
def retryCutThrows (ag : AgentSt) (e : JsError) : Bool :=
  e.isErrorInstance && jsIncludes e.message "validation failed" &&
    jsIncludes e.message "Max token limit reached" &&
    (cutMessages (shrunkManager ag)).2.isSome

/-- A step-error state for the carved-out case: the agent was
configured with `maxInputTokens = 500`, so the token-limit branch sets
the manager's budget to `0`; the one-record history (one token) is then
over budget and its overshoot equals the newest cost, so the re-run
`cutMessages` throws. -/
def agC : AgentSt :=
  { mm := { messages := [⟨⟨"user", .str "aaa"⟩, 1⟩]
            totalTokens := 1
            maxInputTokens := 128000 }
    lastResult := [{ extractedContent := some "prior" }]
    consecutiveFailures := 0
    maxInputTokens := 500 }

/-- An LLM-output error whose message holds both trigger substrings. -/
def errC : JsError :=
  { message := "Invalid model output: validation failed - Max token limit reached" }

/-- A second carved-out-case state, hitting the other throw of the
re-run `cutMessages`: the agent was configured with
`maxInputTokens = 600`, so the token-limit branch sets the manager's
budget to `100`; the two-record history (110 tokens, newest a
300-character plain string costing 100) is then over budget by 10, the
overflow test passes (a proportion of `0.1`), and the trim branch
faults with a TypeError inside `_removeMessage`. -/
def agC2 : AgentSt :=
  { mm := { messages := [⟨⟨"system", .str "aaaaaaaaaaaaaaaaaaaaaaaaaaaaaa"⟩, 10⟩,
              ⟨⟨"user", .str ⟨List.replicate 300 'b'⟩⟩, 100⟩]
            totalTokens := 110
            maxInputTokens := 128000 }
    lastResult := []
    consecutiveFailures := 1
    maxInputTokens := 600 }

/-- A plain step error (no trigger substrings). -/
def errW : JsError := { message := "net::ERR_CONNECTION_REFUSED" }

/-- A step-error state outside the carved-out case. -/
def agW : AgentSt :=
  { mm := { messages := [⟨⟨"user", .str "hi"⟩, 0⟩]
            totalTokens := 0
            maxInputTokens := 128000 }
    lastResult := []
    consecutiveFailures := 2
    maxInputTokens := 128000 }

/-- C3: code bug. The claimed behaviour — trim the newest message to
fit, or fail with the context-overflow error exactly when the
post-image-drop overshoot exceeds 0.99 of the newest message's token
cost — is not the program's, on either side. On the wellformed
over-budget state `stA` the post-drop overshoot is 1 against a newest
cost of 10 (a proportion of 0.1, so the claim demands success), yet
`getMessages` throws the overflow error: `cutMessages` tests the
*stale* pre-drop overshoot 801 against the post-drop cost. On the
wellformed over-budget state `stB` the post-drop overshoot is likewise
1 against a cost of 10, the overflow test passes, and the claimed
proportional trim should complete — but the trim branch calls
`_removeMessage()`, which reads `messages[-1]` (`undefined` in
JavaScript) and faults with a TypeError before removing anything, so
`getMessages` neither brings the history under budget (the state keeps
`totalTokens = 10 > 9`) nor throws the context-overflow error. -/
theorem getMessages_trim_never_completes :
    (WellFormedTokens stA ∧ TokenInvariant stA ∧
      stA.maxInputTokens < totalAfterImageDrop stA ∧
      100 * (totalAfterImageDrop stA - stA.maxInputTokens) ≤
        99 * newestCostAfterImageDrop stA ∧
      (getMessages stA).2 = .error overflowErrorMessage) ∧
    (WellFormedTokens stB ∧ TokenInvariant stB ∧
      stB.maxInputTokens < totalAfterImageDrop stB ∧
      100 * (totalAfterImageDrop stB - stB.maxInputTokens) ≤
        99 * newestCostAfterImageDrop stB ∧
      (getMessages stB).2 = .error "TypeError" ∧
      stB.maxInputTokens < (getMessages stB).1.totalTokens) := by
  refine ⟨⟨?_, ?_, ?_, ?_, ?_⟩, ?_, ?_, ?_, ?_, ?_, ?_⟩
  · unfold WellFormedTokens
    decide
  · unfold TokenInvariant
    decide
  · decide
  · decide
  · rfl
  · unfold WellFormedTokens
    decide
  · unfold TokenInvariant
    decide
  · decide
  · decide
  · rfl
  · decide

/-- C9: counterexample, in both variants of the swallowed throw. Agent
state `agC` (configured `maxInputTokens = 500`, a one-record history of
one token, zero consecutive failures) with the try-block error `errC`,
whose message holds both `'validation failed'` and
`'Max token limit reached'`: `_handleStepError` shrinks the manager
budget to `0` and the re-run `cutMessages()` throws the overflow error
before `consecutiveFailures++`; back in `step`, `result` is still `[]`,
so the `return` in the `finally` block discards the exception. Agent
state `agC2` reaches the same swallow through the other throw: its
re-run `cutMessages()` passes the overflow test (overshoot proportion
`0.1`) and faults with the trim branch's TypeError. In both cases the
step ends with *no* error `ActionResult`, the counter not incremented,
and `lastResult` untouched — against the claim's
single-error-result-plus-increment for every exception. -/
theorem step_swallows_error_counterexample :
    retryCutThrows agC errC = true ∧
    (cutMessages (shrunkManager agC)).2 = some overflowErrorMessage ∧
    agC.consecutiveFailures = 0 ∧
    (step agC (.error errC)).2 = [] ∧
    (step agC (.error errC)).1.consecutiveFailures = 0 ∧
    (step agC (.error errC)).1.lastResult = agC.lastResult ∧
    retryCutThrows agC2 errC = true ∧
    (cutMessages (shrunkManager agC2)).2 = some "TypeError" ∧
    agC2.consecutiveFailures = 1 ∧
    (step agC2 (.error errC)).2 = [] ∧
    (step agC2 (.error errC)).1.consecutiveFailures = 1 ∧
    (step agC2 (.error errC)).1.lastResult = agC2.lastResult := by
  refine ⟨by decide, rfl, rfl, rfl, rfl, rfl,
    by decide, rfl, rfl, rfl, rfl, rfl⟩

/-- C9 (amended): one orchestrator step's failure accounting. If the
try block completes, its result list becomes the step's result and
`lastResult`, and the consecutive-failure counter resets to zero. If it
throws, then — except in the carved-out case — the step's result and
`lastResult` become exactly one `ActionResult` with `error` set to the
formatted message and `includeInMemory = true`, and the counter
increments by one. In the carved-out case (`retryCutThrows`: an `Error`
whose message holds both `'validation failed'` and
`'Max token limit reached'`, and `cutMessages()` on the shrunken budget
throws), the step produces *no* result, and neither the counter nor
`lastResult` changes. -/
theorem step_failure_accounting (ag : AgentSt)
    (outc : Except JsError (List ActionResult)) :
    (∀ res, outc = .ok res →
      (step ag outc).2 = res ∧
      (step ag outc).1.consecutiveFailures = 0 ∧
      (step ag outc).1.lastResult = res) ∧
    (∀ e, outc = .error e → retryCutThrows ag e = false →
      (step ag outc).2 =
        [{ error := some (formatError e), includeInMemory := some true }] ∧
      (step ag outc).1.consecutiveFailures = ag.consecutiveFailures + 1 ∧
      (step ag outc).1.lastResult =
        [{ error := some (formatError e), includeInMemory := some true }]) ∧
    (∀ e, outc = .error e → retryCutThrows ag e = true →
      (step ag outc).2 = [] ∧
      (step ag outc).1.consecutiveFailures = ag.consecutiveFailures ∧
      (step ag outc).1.lastResult = ag.lastResult) := by
  have hmain : ∀ e : JsError, retryCutThrows ag e = false →
      ∃ ag1 : AgentSt, handleStepError ag e =
        (ag1, .ok [{ error := some (formatError e), includeInMemory := some true }]) ∧
        ag1.consecutiveFailures = ag.consecutiveFailures + 1 := by
    intro e h
    unfold retryCutThrows at h
    unfold handleStepError
    dsimp only
    split
    · split
      · split
        · simp_all
        · exact ⟨_, rfl, rfl⟩
      · exact ⟨_, rfl, rfl⟩
    · split
      · exact ⟨_, rfl, rfl⟩
      · exact ⟨_, rfl, rfl⟩
  have hthrow : ∀ e : JsError, retryCutThrows ag e = true →
      ∃ (ag1 : AgentSt) (msg : String), handleStepError ag e =
        (ag1, .error msg) ∧
        ag1.consecutiveFailures = ag.consecutiveFailures ∧
        ag1.lastResult = ag.lastResult := by
    intro e h
    unfold retryCutThrows at h
    unfold handleStepError
    dsimp only
    split
    · split
      · split
        · exact ⟨_, _, rfl, rfl, rfl⟩
        · simp_all
      · simp_all
    · simp_all
  refine ⟨?_, ?_, ?_⟩
  · rintro res rfl
    exact ⟨rfl, rfl, rfl⟩
  · rintro e rfl h
    obtain ⟨ag1, heq, hcf⟩ := hmain e h
    unfold step
    dsimp only
    rw [heq]
    dsimp only
    exact ⟨rfl, hcf, rfl⟩
  · rintro e rfl h
    obtain ⟨ag1, msg, heq, hcf, hlast⟩ := hthrow e h
    unfold step
    dsimp only
    rw [heq]
    dsimp only
    exact ⟨rfl, hcf, hlast⟩

/-- C9 witness: the amended theorem applied to agent state `agW`
(two consecutive failures) and a plain navigation error: the step
produces the single error result and the counter becomes three. -/
theorem step_failure_accounting_witness :
    retryCutThrows agW errW = false ∧
    (step agW (.error errW)).2 =
      [{ error := some (formatError errW), includeInMemory := some true }] ∧
    (step agW (.error errW)).1.consecutiveFailures = 3 := by
  have h := (step_failure_accounting agW (.error errW)).2.1 errW rfl
    (by decide)
  exact ⟨by decide, h.1, h.2.1⟩

end BrowserUse
